import Mathlib

/-!
Shallow embedding of the DAO governance agent (`main.py`): proposal scoring
heuristics, aggregation into an overall score and recommendation, vote
recording, the governance cycle, and the proposal-file loader.  Scores are
modelled as exact rationals, strings as lists of characters; substring tests
model Python's `in` operator on lower-cased text.
-/

/-- Lower-case a string, modelling Python's `str.lower()` (ASCII-faithful). -/
def lowerStr (cs : List Char) : List Char := cs.map Char.toLower

/-- A word character in the sense of the regex `\b` boundary: alphanumeric or underscore. -/
def isWordCh (c : Char) : Bool := c.isAlphanum || c == '_'

/-- `strMatch n h` holds when the needle `n` matches at the very start of `h`. -/
def strMatch : List Char → List Char → Bool
  | [], _ => true
  | _ :: _, [] => false
  | a :: as, b :: bs => a == b && strMatch as bs

/-- `strContains h n` models Python's `n in h` (substring containment). -/
def strContains : List Char → List Char → Bool
  | [], needle => strMatch needle []
  | c :: t, needle => strMatch needle (c :: t) || strContains t needle

/-- Number of whitespace-separated words, modelling Python's `len(s.split())`. -/
def wordCount (cs : List Char) : ℕ :=
  (cs.foldl
    (fun acc c =>
      if c.isWhitespace then (acc.1, false)
      else if acc.2 then acc else (acc.1 + 1, true))
    ((0 : ℕ), false)).1

/-- Cost-related keywords checked by `_analyze_treasury_impact`. -/
def costKeywords : List (List Char) :=
  ["spend".toList, "cost".toList, "budget".toList, "fund".toList, "eth".toList, "token".toList]

/-- Positive community keywords of `_analyze_community_alignment`. -/
def positiveKeywords : List (List Char) :=
  ["community".toList, "decentralized".toList, "transparent".toList, "education".toList,
   "growth".toList, "sustainable".toList, "public".toList, "open source".toList]

/-- Negative community keywords of `_analyze_community_alignment`. -/
def negativeKeywords : List (List Char) :=
  ["centralized".toList, "exclusive".toList, "private".toList, "restricted".toList]

/-- Structure markers checked on the raw description by `_analyze_technical_feasibility`. -/
def structureMarkers : List (List Char) :=
  ["##".toList, "###".toList, "1.".toList, "2.".toList, "-".toList]

/-- Timeline keywords of `_analyze_technical_feasibility`. -/
def timelineKeywords : List (List Char) :=
  ["week".toList, "month".toList, "timeline".toList, "phase".toList]

/-- Implementation keywords of `_analyze_technical_feasibility`. -/
def technicalKeywords : List (List Char) :=
  ["contract".toList, "audit".toList, "test".toList, "develop".toList]

/-- High-risk keywords of `_analyze_risk`. -/
def highRiskKeywords : List (List Char) :=
  ["risky".toList, "experimental".toList, "untested".toList, "no audit".toList,
   "instant".toList, "immediately".toList]

/-- Medium-risk keywords of `_analyze_risk`. -/
def mediumRiskKeywords : List (List Char) :=
  ["new".toList, "change".toList, "modify".toList, "remove".toList]

/-- Low-risk keywords of `_analyze_risk`. -/
def lowRiskKeywords : List (List Char) :=
  ["audit".toList, "tested".toList, "proven".toList, "standard".toList, "established".toList]

/-- Numeric value of a decimal digit character. -/
def digitVal (c : Char) : ℕ := c.toNat - '0'.toNat

/-- Value of a digit string read in base 10. -/
def natOfDigits (ds : List Char) : ℕ := ds.foldl (fun n c => 10 * n + digitVal c) 0

/-- Exact rational value of a numeric token with integer digits and fractional digits,
modelling `float(token.replace(",", ""))`. -/
def ratOfParts (intPart fracPart : List Char) : ℚ :=
  (natOfDigits intPart : ℚ) + (natOfDigits fracPart : ℚ) / (10 : ℚ) ^ fracPart.length

/-- The regex word boundary `\b` placed right after a digit: satisfied when the
remaining text is empty or starts with a non-word character. -/
def endBound : List Char → Bool
  | [] => true
  | c :: _ => !isWordCh c

/-- After the integer digits (and any comma groups), try the optional fractional part
`(?:\.\d+)?` greedily and then require the closing `\b`; returns the extra integer
digits (none here), the fractional digits, and the rest of the text. -/
def parseNoGroup : List Char → Option (List Char × List Char × List Char)
  | '.' :: rest =>
      let ds := rest.takeWhile Char.isDigit
      if !ds.isEmpty && endBound (rest.dropWhile Char.isDigit) then
        some ([], ds, rest.dropWhile Char.isDigit)
      else if endBound ('.' :: rest) then some ([], [], '.' :: rest)
      else none
  | cs => if endBound cs then some ([], [], cs) else none

/-- Greedy-with-backtracking parse of `(?:,\d{3})*(?:\.\d+)?\b` after the integer
digits, mirroring the regex `\b\d+(?:,\d{3})*(?:\.\d+)?\b`:  consume as many
`,ddd` groups as possible; when the continuation fails, drop the trailing group
and retry without it. -/
def parseTail : List Char → Option (List Char × List Char × List Char)
  | ',' :: a :: b :: c :: rest =>
      if a.isDigit && b.isDigit && c.isDigit then
        match parseTail rest with
        | some (g, f, r) => some (a :: b :: c :: g, f, r)
        | none => parseNoGroup (',' :: a :: b :: c :: rest)
      else parseNoGroup (',' :: a :: b :: c :: rest)
  | cs => parseNoGroup cs

/-- Left-to-right scan collecting all matches of `\b\d+(?:,\d{3})*(?:\.\d+)?\b`,
modelling `re.findall` over the lower-cased description; `prevW` records whether
the previous character was a word character (for the opening `\b`).  The fuel
argument bounds recursion and is always at least the remaining length plus one. -/
def scanNums : ℕ → List Char → Bool → List ℚ
  | 0, _, _ => []
  | _ + 1, [], _ => []
  | fuel + 1, c :: cs, prevW =>
      if c.isDigit && !prevW then
        match parseTail ((c :: cs).dropWhile Char.isDigit) with
        | some (g, f, r) =>
            ratOfParts ((c :: cs).takeWhile Char.isDigit ++ g) f :: scanNums fuel r true
        | none => scanNums fuel cs true
      else scanNums fuel cs (isWordCh c)

/-- All numeric tokens of a description, as exact rationals. -/
def findNumbers (d : List Char) : List ℚ := scanNums (d.length + 1) d false

/-- Maximum of a list of rationals (`max(...)` in the source; only used on
non-empty lists, 0 on the empty list). -/
def maxListQ : List ℚ → ℚ
  | [] => 0
  | x :: xs => xs.foldl max x

/-- Clamp to the unit interval, modelling `max(0.0, min(1.0, score))`. -/
def clamp01 (x : ℚ) : ℚ := max 0 (min 1 x)

/-- Vote options. -/
inductive VoteChoice where
  | FOR
  | AGAINST
  | ABSTAIN
  deriving DecidableEq

/-- A DAO proposal. -/
structure Proposal where
  id : Int
  title : List Char
  description : List Char
  proposer : List Char
  votes_for : Int := 0
  votes_against : Int := 0
  votes_abstain : Int := 0
  executed : Bool := false
  deriving DecidableEq

/-- Transparent metrics for automated voting decisions. -/
structure VotingMetrics where
  treasury_impact_weight : ℚ := 3/10
  community_alignment_weight : ℚ := 1/4
  technical_feasibility_weight : ℚ := 1/4
  risk_assessment_weight : ℚ := 1/5
  min_score_to_support : ℚ := 3/5
  max_treasury_spend_pct : ℚ := 1/10
  deriving DecidableEq

/-- Whether the lower-cased description mentions any cost keyword. -/
def hasCostKw (desc : List Char) : Bool := costKeywords.any (strContains desc)

/-- Treasury-impact score (`_analyze_treasury_impact`). -/
def _analyze_treasury_impact (p : Proposal) : ℚ :=
  let desc := lowerStr p.description
  if hasCostKw desc then
    let numbers := findNumbers desc
    if numbers.isEmpty then 1/2
    else if 50 < maxListQ numbers then 3/10
    else if 20 < maxListQ numbers then 3/5
    else 4/5
  else 4/5

/-- Community-alignment score (`_analyze_community_alignment`). -/
def _analyze_community_alignment (p : Proposal) : ℚ :=
  let desc := lowerStr p.description
  let pos_count := (positiveKeywords.filter (strContains desc)).length
  let neg_count := (negativeKeywords.filter (strContains desc)).length
  clamp01 (1/2 + (pos_count : ℚ) * (2/25) - (neg_count : ℚ) * (3/20))

/-- Technical-feasibility score (`_analyze_technical_feasibility`). -/
def _analyze_technical_feasibility (p : Proposal) : ℚ :=
  let desc := p.description
  let dl := lowerStr desc
  let score : ℚ := 1/5
    + (if 150 < wordCount desc then (1/5 : ℚ) else 0)
    + (if structureMarkers.any (strContains desc) then (1/5 : ℚ) else 0)
    + (if timelineKeywords.any (strContains dl) then (3/20 : ℚ) else 0)
    + (if strContains dl ("budget".toList) then (3/20 : ℚ) else 0)
    + (if technicalKeywords.any (strContains dl) then (1/10 : ℚ) else 0)
  min 1 score

/-- Score contribution of one high-risk keyword (`score -= 0.2` when it occurs
in the description or the title). -/
def highTerm (title desc kw : List Char) : ℚ :=
  if strContains desc kw || strContains title kw then -(1/5) else 0

/-- Score contribution of one medium-risk keyword (`score -= 0.05`). -/
def medTerm (title desc kw : List Char) : ℚ :=
  if strContains desc kw || strContains title kw then -(1/20) else 0

/-- Score contribution of one low-risk keyword (`score += 0.1`, description only). -/
def lowTerm (desc kw : List Char) : ℚ :=
  if strContains desc kw then 1/10 else 0

/-- Risk pre-score before clamping: 0.6 plus all keyword contributions. -/
def riskPre (title desc : List Char) : ℚ :=
  3/5 + (highRiskKeywords.map (highTerm title desc)).sum
      + (mediumRiskKeywords.map (medTerm title desc)).sum
      + (lowRiskKeywords.map (lowTerm desc)).sum

/-- Risk-assessment score (`_analyze_risk`). -/
def _analyze_risk (p : Proposal) : ℚ :=
  clamp01 (riskPre (lowerStr p.title) (lowerStr p.description))

/-- Risk pre-score of a proposal, before the final clamp. -/
def riskPreOf (p : Proposal) : ℚ := riskPre (lowerStr p.title) (lowerStr p.description)

/-- Number of high-risk keywords matched in title or description. -/
def highHits (p : Proposal) : ℕ :=
  (highRiskKeywords.filter
    (fun kw => strContains (lowerStr p.description) kw || strContains (lowerStr p.title) kw)).length

/-- Number of medium-risk keywords matched in title or description. -/
def medHits (p : Proposal) : ℕ :=
  (mediumRiskKeywords.filter
    (fun kw => strContains (lowerStr p.description) kw || strContains (lowerStr p.title) kw)).length

/-- Number of low-risk keywords matched in the description. -/
def lowHits (p : Proposal) : ℕ :=
  (lowRiskKeywords.filter (fun kw => strContains (lowerStr p.description) kw)).length

/-- Weighted overall score of a proposal (`analyze_proposal`, aggregation step). -/
def overallScore (m : VotingMetrics) (p : Proposal) : ℚ :=
  _analyze_treasury_impact p * m.treasury_impact_weight
  + _analyze_community_alignment p * m.community_alignment_weight
  + _analyze_technical_feasibility p * m.technical_feasibility_weight
  + _analyze_risk p * m.risk_assessment_weight

/-- The three-way recommendation rule of `analyze_proposal`, branches in source order. -/
def recommend (minScore overall : ℚ) : VoteChoice :=
  if minScore ≤ overall then VoteChoice.FOR
  else if overall < 2/5 then VoteChoice.AGAINST
  else VoteChoice.ABSTAIN

/-- A produced analysis record. -/
structure Analysis where
  proposal_id : Int
  treasury_impact : ℚ
  community_alignment : ℚ
  technical_feasibility : ℚ
  risk_assessment : ℚ
  overall_score : ℚ
  recommendation : VoteChoice
  deriving DecidableEq

/-- The analysis record built by `analyze_proposal` for one proposal. -/
def mkAnalysis (m : VotingMetrics) (p : Proposal) : Analysis :=
  { proposal_id := p.id
    treasury_impact := _analyze_treasury_impact p
    community_alignment := _analyze_community_alignment p
    technical_feasibility := _analyze_technical_feasibility p
    risk_assessment := _analyze_risk p
    overall_score := overallScore m p
    recommendation := recommend m.min_score_to_support (overallScore m p) }

/-- A vote record appended by `cast_vote`. -/
structure VoteRecord where
  timestamp : ℕ
  proposal_id : Int
  vote : VoteChoice
  dry_run : Bool
  deriving DecidableEq

/-- The in-memory agent state: configuration plus the two accumulated lists. -/
structure AgentState where
  metrics : VotingMetrics
  voting_history : List VoteRecord
  analyses : List Analysis
  deriving DecidableEq

/-- `analyze_proposal`: build the analysis, append it to `self.analyses`, return it. -/
def analyze_proposal (s : AgentState) (p : Proposal) : AgentState × Analysis :=
  let a := mkAnalysis s.metrics p
  ({ s with analyses := s.analyses ++ [a] }, a)

/-- `cast_vote`: append one vote record to `self.voting_history` and return it.
The current time is passed explicitly in place of `time.time()`. -/
def cast_vote (s : AgentState) (now : ℕ) (pid : Int) (vote : VoteChoice) (dry : Bool) :
    AgentState × VoteRecord :=
  let r : VoteRecord := { timestamp := now, proposal_id := pid, vote := vote, dry_run := dry }
  ({ s with voting_history := s.voting_history ++ [r] }, r)

/-- The vote record produced for one proposal during a cycle. -/
def mkVoteRecord (m : VotingMetrics) (now : ℕ) (dry : Bool) (p : Proposal) : VoteRecord :=
  { timestamp := now, proposal_id := p.id
    vote := (mkAnalysis m p).recommendation, dry_run := dry }

/-- One iteration of the cycle loop: analyze the proposal, then cast the vote. -/
def cycleStep (now : ℕ) (dry : Bool) (st : AgentState) (p : Proposal) : AgentState :=
  let pair := analyze_proposal st p
  (cast_vote pair.1 now p.id pair.2.recommendation dry).1

/-- `run_governance_cycle`: clear the analyses list, then (unless the proposal
list is empty, in which case it returns early) analyze and vote on each proposal
in order.  The proposal list stands for the output of `monitor_proposals`. -/
def run_governance_cycle (s : AgentState) (proposals : List Proposal) (now : ℕ) (dry : Bool) :
    AgentState :=
  let s1 : AgentState := { s with analyses := [] }
  if proposals.isEmpty then s1
  else proposals.foldl (cycleStep now dry) s1

/-- A raw proposal record as parsed from JSON: every field may be absent. -/
structure RawRecord where
  id : Option Int
  title : Option (List Char)
  description : Option (List Char)
  proposer : Option (List Char)
  votesFor : Option Int := none
  votesAgainst : Option Int := none
  votesAbstain : Option Int := none
  executed : Option Bool := none
  deriving DecidableEq

/-- Build a `Proposal` from one raw record; `none` models the `KeyError` raised
by `p["id"]` etc. when a required field is missing, while the optional fields
use `p.get(..., default)`. -/
def parseRecord (r : RawRecord) : Option Proposal :=
  match r.id, r.title, r.description, r.proposer with
  | some i, some t, some d, some pr =>
      some { id := i, title := t, description := d, proposer := pr
             votes_for := r.votesFor.getD 0
             votes_against := r.votesAgainst.getD 0
             votes_abstain := r.votesAbstain.getD 0
             executed := r.executed.getD false }
  | _, _, _, _ => none

/-- The loading loop of `load_proposals_from_file`: the first record that raises
aborts the whole loop (`none`), otherwise all parsed proposals are returned. -/
def parseAll : List RawRecord → Option (List Proposal)
  | [] => some []
  | r :: rs =>
      match parseRecord r with
      | none => none
      | some p =>
          match parseAll rs with
          | none => none
          | some ps => some (p :: ps)

/-- `load_proposals_from_file`: `none` input models `FileNotFoundError` (caught,
returns `[]`); a parse failure inside the loop is caught by the blanket
`except Exception` handler, which also returns `[]`. -/
def load_proposals_from_file (input : Option (List RawRecord)) : List Proposal :=
  match input with
  | none => []
  | some rs =>
      match parseAll rs with
      | some ps => ps
      | none => []

/-! ## Helper lemmas -/

theorem strMatch_append_left (a b : List Char) :
    ∀ h : List Char, strMatch (a ++ b) h = true → strContains h b = true := by
  induction a with
  | nil =>
      intro h hm
      rw [List.nil_append] at hm
      cases h with
      | nil => exact hm
      | cons y t => simp only [strContains, hm, Bool.true_or]
  | cons x a ih =>
      intro h hm
      cases h with
      | nil => simp [strMatch] at hm
      | cons y t =>
          simp only [List.cons_append, strMatch, Bool.and_eq_true] at hm
          have := ih t hm.2
          simp only [strContains, this, Bool.or_true]

theorem strContains_of_append (h a b : List Char)
    (hc : strContains h (a ++ b) = true) : strContains h b = true := by
  induction h with
  | nil =>
      cases a with
      | nil => exact hc
      | cons x t => simp [strContains, strMatch] at hc
  | cons c t ih =>
      simp only [strContains, Bool.or_eq_true] at hc ⊢
      rcases hc with hm | hrest
      · have := strMatch_append_left a b (c :: t) hm
        simp only [strContains, Bool.or_eq_true] at this
        exact this
      · exact Or.inr (ih hrest)

theorem sum_map_ite {α : Type} (c : ℚ) (P : α → Bool) (l : List α) :
    ((l.map fun k => if P k then c else 0).sum) = c * ((l.filter P).length : ℚ) := by
  induction l with
  | nil => simp
  | cons a l ih =>
      by_cases h : P a
      · simp only [List.map_cons, List.sum_cons, List.filter_cons, h, if_pos, ih,
          List.length_cons]
        push_cast
        ring
      · simp [List.filter_cons, h, ih]

theorem highSum (t d : List Char) :
    (highRiskKeywords.map (highTerm t d)).sum
      = -(1/5) * ((highRiskKeywords.filter
          (fun kw => strContains d kw || strContains t kw)).length : ℚ) :=
  sum_map_ite (-(1/5) : ℚ) (fun kw => strContains d kw || strContains t kw) highRiskKeywords

theorem medSum (t d : List Char) :
    (mediumRiskKeywords.map (medTerm t d)).sum
      = -(1/20) * ((mediumRiskKeywords.filter
          (fun kw => strContains d kw || strContains t kw)).length : ℚ) :=
  sum_map_ite (-(1/20) : ℚ) (fun kw => strContains d kw || strContains t kw) mediumRiskKeywords

theorem lowSum (d : List Char) :
    (lowRiskKeywords.map (lowTerm d)).sum
      = (1/10) * ((lowRiskKeywords.filter (fun kw => strContains d kw)).length : ℚ) :=
  sum_map_ite ((1/10) : ℚ) (fun kw => strContains d kw) lowRiskKeywords

theorem riskPre_counts (p : Proposal) :
    riskPreOf p = 3/5 - (1/5) * (highHits p : ℚ) - (1/20) * (medHits p : ℚ)
      + (1/10) * (lowHits p : ℚ) := by
  unfold riskPreOf riskPre highHits medHits lowHits
  rw [highSum, medSum, lowSum]
  ring

theorem risk_clamp (p : Proposal) : _analyze_risk p = clamp01 (riskPreOf p) := rfl

theorem lowHits_le (p : Proposal) : lowHits p ≤ 5 := by
  calc lowHits p ≤ lowRiskKeywords.length :=
        List.length_filter_le _ _
    _ = 5 := rfl

theorem riskPre_le (p : Proposal) : riskPreOf p ≤ 11/10 := by
  rw [riskPre_counts]
  have h1 : (0:ℚ) ≤ (highHits p : ℚ) := Nat.cast_nonneg _
  have h2 : (0:ℚ) ≤ (medHits p : ℚ) := Nat.cast_nonneg _
  have h3 : (lowHits p : ℚ) ≤ 5 := by exact_mod_cast lowHits_le p
  linarith

theorem clamp01_nonneg (x : ℚ) : 0 ≤ clamp01 x := le_max_left _ _

theorem clamp01_le_one (x : ℚ) : clamp01 x ≤ 1 := max_le (by norm_num) (min_le_left _ _)

theorem clamp01_mono {a b : ℚ} (h : a ≤ b) : clamp01 a ≤ clamp01 b :=
  max_le_max le_rfl (min_le_min le_rfl h)

theorem clamp01_pos_arg {a : ℚ} (h : 0 < clamp01 a) : 0 < a := by
  by_contra hc
  push_neg at hc
  have : clamp01 a ≤ 0 := max_le le_rfl (le_trans (min_le_right _ _) hc)
  linarith

theorem clamp01_lt_of {a b : ℚ} (h0 : 0 < clamp01 a) (hb : b < min 1 a) :
    clamp01 b < clamp01 a := by
  have ha0 : 0 < a := clamp01_pos_arg h0
  have hmin : 0 < min 1 a := lt_min (by norm_num) ha0
  have ha : clamp01 a = min 1 a := max_eq_right hmin.le
  have hb1 : b < 1 := lt_of_lt_of_le hb (min_le_left _ _)
  have hcb : clamp01 b = max 0 b := by unfold clamp01; rw [min_eq_right hb1.le]
  rw [ha, hcb]
  rcases le_or_lt b 0 with hb0 | hb0
  · rw [max_eq_left hb0]; exact hmin
  · rw [max_eq_right hb0.le]; exact hb

theorem cycle_foldl (now : ℕ) (dry : Bool) :
    ∀ (ps : List Proposal) (m : VotingMetrics) (hist : List VoteRecord) (anal : List Analysis),
      ps.foldl (cycleStep now dry) ⟨m, hist, anal⟩
        = ⟨m, hist ++ ps.map (mkVoteRecord m now dry), anal ++ ps.map (mkAnalysis m)⟩ := by
  intro ps
  induction ps with
  | nil => intro m hist anal; simp
  | cons p ps ih =>
      intro m hist anal
      have hstep : cycleStep now dry ⟨m, hist, anal⟩ p
          = ⟨m, hist ++ [mkVoteRecord m now dry p], anal ++ [mkAnalysis m p]⟩ := rfl
      rw [List.foldl_cons, hstep, ih]
      simp

theorem run_cycle_spec (s : AgentState) (ps : List Proposal) (now : ℕ) (dry : Bool) :
    run_governance_cycle s ps now dry
      = ⟨s.metrics, s.voting_history ++ ps.map (mkVoteRecord s.metrics now dry),
         ps.map (mkAnalysis s.metrics)⟩ := by
  unfold run_governance_cycle
  cases ps with
  | nil => simp
  | cons p ps' =>
      have h : ({ s with analyses := [] } : AgentState)
          = (⟨s.metrics, s.voting_history, []⟩ : AgentState) := rfl
      simp only [List.isEmpty_cons, if_neg, Bool.false_eq_true, not_false_eq_true, h,
        cycle_foldl]
      simp [cycle_foldl now dry (p :: ps') s.metrics s.voting_history []]

/-! ## Claim theorems -/

/-- C1: for every proposal and configuration, the overall score equals the
weighted sum `treasury*w_treasury + community*w_community + technical*w_technical
+ risk*w_risk` with no clamping, and the recommendation is FOR whenever
`overall >= min_score_to_support`, otherwise AGAINST whenever `overall < 0.4`,
otherwise ABSTAIN, with the branches evaluated in exactly that order. -/
theorem claim_c1_overall_and_recommendation (s : AgentState) (p : Proposal) :
    (analyze_proposal s p).2.overall_score =
        _analyze_treasury_impact p * s.metrics.treasury_impact_weight
      + _analyze_community_alignment p * s.metrics.community_alignment_weight
      + _analyze_technical_feasibility p * s.metrics.technical_feasibility_weight
      + _analyze_risk p * s.metrics.risk_assessment_weight
    ∧ (analyze_proposal s p).2.recommendation =
        (if s.metrics.min_score_to_support ≤ (analyze_proposal s p).2.overall_score
          then VoteChoice.FOR
         else if (analyze_proposal s p).2.overall_score < 2/5 then VoteChoice.AGAINST
         else VoteChoice.ABSTAIN) :=
  ⟨rfl, rfl⟩

/-- C2: when `min_score_to_support` is configured below 0.4 the three
recommendation branches are not mutually exhaustive in the intended order: every
overall score with `min_score_to_support <= overall < 0.4` is recommended FOR,
not AGAINST; such an overall exists; and a FOR recommendation with
`overall < 0.4` is reachable only when `min_score_to_support < 0.4`. -/
theorem claim_c2_threshold_overlap (m : ℚ) (hm : m < 2/5) :
    (∀ x : ℚ, m ≤ x → x < 2/5 → recommend m x = VoteChoice.FOR) ∧
    (∃ x : ℚ, x < 2/5 ∧ recommend m x = VoteChoice.FOR) ∧
    (∀ m' x : ℚ, recommend m' x = VoteChoice.FOR → x < 2/5 → m' < 2/5) := by
  refine ⟨?_, ?_, ?_⟩
  · intro x hx _
    unfold recommend
    rw [if_pos hx]
  · exact ⟨m, hm, by unfold recommend; rw [if_pos le_rfl]⟩
  · intro m' x hr hx
    unfold recommend at hr
    by_cases h : m' ≤ x
    · exact lt_of_le_of_lt h hx
    · rw [if_neg h] at hr
      by_cases h2 : x < 2/5
      · rw [if_pos h2] at hr
        exact VoteChoice.noConfusion hr
      · rw [if_neg h2] at hr
        exact VoteChoice.noConfusion hr

/-- Witness for C2 at the concrete configuration `min_score_to_support = 0.3`:
the overall score 0.3 lies below 0.4 yet is recommended FOR. -/
theorem claim_c2_witness :
    (3/10 : ℚ) < 2/5 ∧ recommend (3/10) (3/10) = VoteChoice.FOR :=
  ⟨by norm_num,
   (claim_c2_threshold_overlap (3/10) (by norm_num)).1 (3/10) le_rfl (by norm_num)⟩

/-- C6: the vote history is strictly append-only: `cast_vote` appends exactly one
record (timestamp, proposal id, recommendation, dry-run flag) and returns it,
leaving prior entries, the analyses and the metrics untouched; a governance cycle
appends one record per proposal while clearing only the analyses list; and after
two cycles the history holds the records of both cycles in order, none lost or
mutated. -/
theorem claim_c6_append_only :
    (∀ (s : AgentState) (now : ℕ) (pid : Int) (v : VoteChoice) (dry : Bool),
      (cast_vote s now pid v dry).1.voting_history
          = s.voting_history ++ [(cast_vote s now pid v dry).2] ∧
      (cast_vote s now pid v dry).2
          = { timestamp := now, proposal_id := pid, vote := v, dry_run := dry } ∧
      (cast_vote s now pid v dry).1.analyses = s.analyses ∧
      (cast_vote s now pid v dry).1.metrics = s.metrics) ∧
    (∀ (s : AgentState) (ps : List Proposal) (now : ℕ) (dry : Bool),
      (run_governance_cycle s ps now dry).voting_history
          = s.voting_history ++ ps.map (mkVoteRecord s.metrics now dry) ∧
      (run_governance_cycle s ps now dry).analyses = ps.map (mkAnalysis s.metrics) ∧
      (run_governance_cycle s ps now dry).metrics = s.metrics) ∧
    (∀ (s : AgentState) (ps1 ps2 : List Proposal) (n1 n2 : ℕ) (d1 d2 : Bool),
      (run_governance_cycle (run_governance_cycle s ps1 n1 d1) ps2 n2 d2).voting_history
        = s.voting_history ++ ps1.map (mkVoteRecord s.metrics n1 d1)
            ++ ps2.map (mkVoteRecord s.metrics n2 d2)) := by
  refine ⟨?_, ?_, ?_⟩
  · intro s now pid v dry
    exact ⟨rfl, rfl, rfl, rfl⟩
  · intro s ps now dry
    rw [run_cycle_spec]
    exact ⟨rfl, rfl, rfl⟩
  · intro s ps1 ps2 n1 n2 d1 d2
    rw [run_cycle_spec, run_cycle_spec]

/-- C8: a missing proposal file loads as the empty list rather than raising, and
a governance cycle over an empty proposal list ends early and non-fatally: zero
analyses, no vote records appended, no other state change. -/
theorem claim_c8_empty_input (s : AgentState) (now : ℕ) (dry : Bool) :
    load_proposals_from_file none = [] ∧
    run_governance_cycle s [] now dry = { s with analyses := [] } ∧
    (run_governance_cycle s [] now dry).voting_history = s.voting_history ∧
    (run_governance_cycle s [] now dry).analyses = [] ∧
    run_governance_cycle s (load_proposals_from_file none) now dry
      = { s with analyses := [] } :=
  ⟨rfl, rfl, rfl, rfl, rfl⟩

/-- C3: the treasury-impact score is exactly 0.8 when the lower-cased description
contains none of the six cost keywords, regardless of numeric content; with a
cost keyword present it is 0.3 when the maximum extracted numeric token exceeds
50, 0.6 when it exceeds 20, 0.8 otherwise, and 0.5 when no numeric token is
found. -/
theorem claim_c3_treasury_mapping (p : Proposal) :
    (hasCostKw (lowerStr p.description) = false → _analyze_treasury_impact p = 4/5) ∧
    (hasCostKw (lowerStr p.description) = true →
      findNumbers (lowerStr p.description) = [] → _analyze_treasury_impact p = 1/2) ∧
    (hasCostKw (lowerStr p.description) = true →
      findNumbers (lowerStr p.description) ≠ [] →
      _analyze_treasury_impact p =
        (if 50 < maxListQ (findNumbers (lowerStr p.description)) then 3/10
         else if 20 < maxListQ (findNumbers (lowerStr p.description)) then 3/5
         else 4/5)) := by
  refine ⟨?_, ?_, ?_⟩
  · intro h
    simp [_analyze_treasury_impact, h]
  · intro h hn
    simp [_analyze_treasury_impact, h, hn]
  · intro h hn
    simp [_analyze_treasury_impact, h, hn]

/-- Concrete proposal for the C3 witness. -/
def pC3 : Proposal :=
  { id := 1, title := "t".toList, description := "cost 100 eth".toList, proposer := "a".toList }

/-- Witness for C3: a description with a cost keyword and maximum number 100
gets treasury score 0.3. -/
theorem claim_c3_witness : _analyze_treasury_impact pC3 = 3/10 := by
  have h := (claim_c3_treasury_mapping pC3).2.2 (by decide) (by decide)
  have hmax : maxListQ (findNumbers (lowerStr pC3.description))
      = ratOfParts ("100".toList) [] := rfl
  have hval : ratOfParts ("100".toList) [] = 100 := by
    unfold ratOfParts
    rw [show natOfDigits ("100".toList) = 100 from by decide,
        show natOfDigits ([] : List Char) = 0 from rfl]
    norm_num
  rw [h, hmax, hval, if_pos (show (50 : ℚ) < 100 by norm_num)]

/-- Concrete proposal whose risk pre-score is negative (four high-risk hits). -/
def pC4risk : Proposal :=
  { id := 2, title := [], description := "risky experimental instant immediately".toList,
    proposer := [] }

/-- Concrete proposal with an empty description. -/
def pC4empty : Proposal := { id := 3, title := "t".toList, description := [], proposer := [] }

/-- A degenerate configuration whose weights sum to 4. -/
def mC4 : VotingMetrics :=
  { treasury_impact_weight := 1, community_alignment_weight := 1,
    technical_feasibility_weight := 1, risk_assessment_weight := 1,
    min_score_to_support := 3/5, max_treasury_spend_pct := 1/10 }

/-- C4: each of the four category scores lies in [0,1]; the risk score is
clamped to 0.0 even when compounded keyword penalties drive the pre-score
negative; and the overall score is not clamped (it can exceed 1 in a degenerate
configuration). -/
theorem claim_c4_score_bounds :
    (∀ p : Proposal, 0 ≤ _analyze_treasury_impact p ∧ _analyze_treasury_impact p ≤ 1) ∧
    (∀ p : Proposal, 0 ≤ _analyze_community_alignment p ∧ _analyze_community_alignment p ≤ 1) ∧
    (∀ p : Proposal, 0 ≤ _analyze_technical_feasibility p ∧ _analyze_technical_feasibility p ≤ 1) ∧
    (∀ p : Proposal, 0 ≤ _analyze_risk p ∧ _analyze_risk p ≤ 1) ∧
    (∃ p : Proposal, riskPreOf p < 0 ∧ _analyze_risk p = 0) ∧
    (∃ (m : VotingMetrics) (p : Proposal), 1 < overallScore m p) := by
  refine ⟨?_, ?_, ?_, ?_, ?_, ?_⟩
  · intro p
    simp only [_analyze_treasury_impact]
    constructor <;> split_ifs <;> norm_num
  · intro p
    exact ⟨clamp01_nonneg _, clamp01_le_one _⟩
  · intro p
    simp only [_analyze_technical_feasibility]
    constructor
    · apply le_min (by norm_num)
      split_ifs <;> norm_num
    · exact min_le_left _ _
  · intro p
    exact ⟨clamp01_nonneg _, clamp01_le_one _⟩
  · have hpre : riskPreOf pC4risk = -(1/5) := by
      rw [riskPre_counts,
          show highHits pC4risk = 4 from by decide,
          show medHits pC4risk = 0 from by decide,
          show lowHits pC4risk = 0 from by decide]
      norm_num
    refine ⟨pC4risk, by rw [hpre]; norm_num, ?_⟩
    rw [risk_clamp, hpre]
    unfold clamp01
    rw [min_eq_right (by norm_num : (-(1/5) : ℚ) ≤ 1),
        max_eq_left (by norm_num : (-(1/5) : ℚ) ≤ 0)]
  · have ht : _analyze_treasury_impact pC4empty = 4/5 := by
      simp [_analyze_treasury_impact,
        show hasCostKw (lowerStr pC4empty.description) = false from by decide]
    have hcomm : _analyze_community_alignment pC4empty = 1/2 := by
      simp only [_analyze_community_alignment,
        show (positiveKeywords.filter (strContains (lowerStr pC4empty.description))).length = 0
          from by decide,
        show (negativeKeywords.filter (strContains (lowerStr pC4empty.description))).length = 0
          from by decide]
      unfold clamp01
      norm_num
    have htech : _analyze_technical_feasibility pC4empty = 1/5 := by
      simp only [_analyze_technical_feasibility,
        show wordCount pC4empty.description = 0 from by decide,
        show structureMarkers.any (strContains pC4empty.description) = false from by decide,
        show timelineKeywords.any (strContains (lowerStr pC4empty.description)) = false
          from by decide,
        show strContains (lowerStr pC4empty.description) ("budget".toList) = false
          from by decide,
        show technicalKeywords.any (strContains (lowerStr pC4empty.description)) = false
          from by decide]
      norm_num
    have hrisk : _analyze_risk pC4empty = 3/5 := by
      rw [risk_clamp, riskPre_counts,
          show highHits pC4empty = 0 from by decide,
          show medHits pC4empty = 0 from by decide,
          show lowHits pC4empty = 0 from by decide]
      unfold clamp01
      norm_num
    refine ⟨mC4, pC4empty, ?_⟩
    unfold overallScore
    rw [ht, hcomm, htech, hrisk]
    norm_num [mC4]

/-- A well-formed raw proposal record. -/
def rawGood : RawRecord :=
  { id := some 1, title := some "a".toList, description := some "b".toList,
    proposer := some "c".toList }

/-- A malformed raw proposal record: the required `proposer` field is missing. -/
def rawBad : RawRecord :=
  { id := some 2, title := some "d".toList, description := some "e".toList, proposer := none }

/-- C5 counterexample: with a malformed record in the input, the parsing loop
fails, yet `load_proposals_from_file` returns normally with the empty list —
the very same result as for a missing file — so the failure is recovered inside
the load step instead of propagating as a hard failure. -/
theorem claim_c5_counterexample :
    parseRecord rawBad = none ∧
    parseAll [rawGood, rawBad] = none ∧
    load_proposals_from_file (some [rawGood, rawBad]) = [] ∧
    load_proposals_from_file (some [rawGood, rawBad]) = load_proposals_from_file none :=
  ⟨rfl, rfl, rfl, rfl⟩

/-- C5 amended: a record missing a required field makes the whole load abort —
no record is skipped individually and even the well-formed records are dropped —
but the error is caught by the load step itself, which recovers by returning an
empty list (indistinguishable from a missing file) rather than propagating a
hard failure. -/
theorem claim_c5_amended (rs : List RawRecord) (r : RawRecord)
    (hmem : r ∈ rs) (hbad : parseRecord r = none) :
    load_proposals_from_file (some rs) = [] := by
  have h : ∀ l : List RawRecord, r ∈ l → parseAll l = none := by
    intro l
    induction l with
    | nil => intro hm; cases hm
    | cons a t ih =>
        intro hm
        rcases List.mem_cons.mp hm with h1 | h1
        · subst h1
          simp [parseAll, hbad]
        · cases hp : parseRecord a <;> simp [parseAll, hp, ih h1]
  simp [load_proposals_from_file, h rs hmem]

/-- Witness for C5 at a concrete two-record input containing one malformed
record: the load returns the empty list. -/
theorem claim_c5_witness : load_proposals_from_file (some [rawGood, rawBad]) = [] :=
  claim_c5_amended [rawGood, rawBad] rawBad (by simp) rfl

/-- Proposal matching all five low-risk keywords and nothing else. -/
def pC7a : Proposal :=
  { id := 4, title := [], description := "audit tested proven standard established".toList,
    proposer := [] }

/-- The same proposal with the medium-risk keyword `new` appended. -/
def pC7b : Proposal :=
  { id := 4, title := [], description := "audit tested proven standard established new".toList,
    proposer := [] }

/-- C7 counterexample: adding the medium-risk keyword `new` (not previously
present, all other keyword matches unchanged) to a description whose risk
pre-score sits above the 1.0 cap does not strictly decrease the risk score: both
scores are clamped to 1.0, although the score is above the 0.0 clamp. -/
theorem claim_c7_counterexample :
    strContains (lowerStr pC7a.description) ("new".toList) = false ∧
    strContains (lowerStr pC7b.description) ("new".toList) = true ∧
    medHits pC7b = medHits pC7a + 1 ∧
    highHits pC7b = highHits pC7a ∧
    lowHits pC7b = lowHits pC7a ∧
    0 < _analyze_risk pC7a ∧
    ¬ _analyze_risk pC7b < _analyze_risk pC7a := by
  have ha : _analyze_risk pC7a = 1 := by
    rw [risk_clamp, riskPre_counts, show highHits pC7a = 0 from by decide,
        show medHits pC7a = 0 from by decide, show lowHits pC7a = 5 from by decide]
    unfold clamp01
    norm_num
  have hb : _analyze_risk pC7b = 1 := by
    rw [risk_clamp, riskPre_counts, show highHits pC7b = 0 from by decide,
        show medHits pC7b = 1 from by decide, show lowHits pC7b = 5 from by decide]
    unfold clamp01
    norm_num
  refine ⟨by decide, by decide, by decide, by decide, by decide, ?_, ?_⟩
  · rw [ha]
    norm_num
  · rw [ha, hb]
    norm_num

/-- C7 amended: with all other keyword matches unchanged, one additional
high-risk match never increases the risk score and strictly decreases it while
the score is above the 0.0 clamp; one additional medium-risk match never
increases the score and strictly decreases it while the score is above 0.0
provided the decreased pre-score is still below the 1.0 cap (otherwise both
scores stay clamped at 1.0); one additional low-risk match in the description
never decreases the score. -/
theorem claim_c7_amended (p q : Proposal) :
    (highHits q = highHits p + 1 → medHits q = medHits p → lowHits q = lowHits p →
      _analyze_risk q ≤ _analyze_risk p ∧
        (0 < _analyze_risk p → _analyze_risk q < _analyze_risk p)) ∧
    (medHits q = medHits p + 1 → highHits q = highHits p → lowHits q = lowHits p →
      _analyze_risk q ≤ _analyze_risk p ∧
        (0 < _analyze_risk p → riskPreOf q < 1 → _analyze_risk q < _analyze_risk p)) ∧
    (lowHits q = lowHits p + 1 → highHits q = highHits p → medHits q = medHits p →
      _analyze_risk p ≤ _analyze_risk q) := by
  refine ⟨?_, ?_, ?_⟩
  · intro h1 h2 h3
    have hq : riskPreOf q = riskPreOf p - 1/5 := by
      rw [riskPre_counts, riskPre_counts, h1, h2, h3]
      push_cast
      ring
    constructor
    · rw [risk_clamp, risk_clamp, hq]
      exact clamp01_mono (by linarith)
    · intro hpos
      rw [risk_clamp] at hpos
      rw [risk_clamp, risk_clamp, hq]
      have hb := riskPre_le p
      have h0 : 0 < riskPreOf p := clamp01_pos_arg hpos
      apply clamp01_lt_of hpos
      apply lt_min
      · linarith
      · linarith
  · intro h1 h2 h3
    have hq : riskPreOf q = riskPreOf p - 1/20 := by
      rw [riskPre_counts, riskPre_counts, h1, h2, h3]
      push_cast
      ring
    constructor
    · rw [risk_clamp, risk_clamp, hq]
      exact clamp01_mono (by linarith)
    · intro hpos hlt
      rw [risk_clamp] at hpos
      rw [risk_clamp, risk_clamp]
      have h0 : 0 < riskPreOf p := clamp01_pos_arg hpos
      apply clamp01_lt_of hpos
      apply lt_min
      · exact hlt
      · rw [hq]
        linarith
  · intro h1 h2 h3
    have hq : riskPreOf q = riskPreOf p + 1/10 := by
      rw [riskPre_counts, riskPre_counts, h1, h2, h3]
      push_cast
      ring
    rw [risk_clamp, risk_clamp, hq]
    exact clamp01_mono (by linarith)

/-- Baseline proposal with no risk keywords at all. -/
def pC7w0 : Proposal := { id := 5, title := [], description := [], proposer := [] }

/-- Baseline plus one high-risk keyword. -/
def pC7wh : Proposal := { id := 5, title := [], description := "risky".toList, proposer := [] }

/-- Baseline plus one medium-risk keyword. -/
def pC7wm : Proposal := { id := 5, title := [], description := "remove".toList, proposer := [] }

/-- Baseline plus one low-risk keyword. -/
def pC7wl : Proposal := { id := 5, title := [], description := "proven".toList, proposer := [] }

/-- Witness for C7 at concrete proposals: one added high-risk keyword strictly
decreases the risk score, one added medium-risk keyword (below the cap) strictly
decreases it, one added low-risk keyword does not decrease it. -/
theorem claim_c7_witness :
    _analyze_risk pC7wh < _analyze_risk pC7w0 ∧
    _analyze_risk pC7wm < _analyze_risk pC7w0 ∧
    _analyze_risk pC7w0 ≤ _analyze_risk pC7wl := by
  have h0 : 0 < _analyze_risk pC7w0 := by
    rw [risk_clamp, riskPre_counts, show highHits pC7w0 = 0 from by decide,
        show medHits pC7w0 = 0 from by decide, show lowHits pC7w0 = 0 from by decide]
    unfold clamp01
    norm_num
  have hm1 : riskPreOf pC7wm < 1 := by
    rw [riskPre_counts, show highHits pC7wm = 0 from by decide,
        show medHits pC7wm = 1 from by decide, show lowHits pC7wm = 0 from by decide]
    norm_num
  exact ⟨((claim_c7_amended pC7w0 pC7wh).1 (by decide) (by decide) (by decide)).2 h0,
         ((claim_c7_amended pC7w0 pC7wm).2.1 (by decide) (by decide) (by decide)).2 h0 hm1,
         (claim_c7_amended pC7w0 pC7wl).2.2 (by decide) (by decide) (by decide)⟩

/-- C9: since community keyword matching is substring containment on the
lower-cased description, every description containing the positive keyword
`decentralized` also matches the negative keyword `centralized`; hence whenever
`decentralized` is the only positive match and `centralized` the (forced) only
negative match, the community-alignment score is 0.5 + 0.08 - 0.15 = 0.43,
strictly below the 0.5 baseline. -/
theorem claim_c9_decentralized (p : Proposal) :
    (strContains (lowerStr p.description) ("decentralized".toList) = true →
      strContains (lowerStr p.description) ("centralized".toList) = true) ∧
    ((positiveKeywords.filter (strContains (lowerStr p.description)))
        = ["decentralized".toList] →
      (negativeKeywords.filter (strContains (lowerStr p.description)))
        = ["centralized".toList] →
      _analyze_community_alignment p = 43/100 ∧ _analyze_community_alignment p < 1/2) := by
  constructor
  · intro h
    have hsplit : ("decentralized".toList : List Char)
        = "de".toList ++ "centralized".toList := rfl
    rw [hsplit] at h
    exact strContains_of_append _ _ _ h
  · intro hpos hneg
    have hval : _analyze_community_alignment p = 43/100 := by
      simp only [_analyze_community_alignment, hpos, hneg, List.length_singleton]
      unfold clamp01
      norm_num
    exact ⟨hval, by rw [hval]; norm_num⟩

/-- Concrete proposal whose description is exactly `decentralized`. -/
def pC9 : Proposal := { id := 6, title := [], description := "decentralized".toList, proposer := [] }

/-- Witness for C9: the description `decentralized` scores 0.43. -/
theorem claim_c9_witness :
    _analyze_community_alignment pC9 = 43/100 ∧ _analyze_community_alignment pC9 < 1/2 :=
  (claim_c9_decentralized pC9).2 (by decide) (by decide)

/-- C10: since risk keyword matching is substring containment, a description
containing the high-risk keyword `untested` also matches the low-risk keyword
`tested`, and one containing `no audit` also matches `audit`; in both cases the
-0.2 high-risk penalty is partially offset by the +0.1 low-risk bonus, a net
contribution of -0.1 before clamping. -/
theorem claim_c10_offsets (p : Proposal) :
    (strContains (lowerStr p.description) ("untested".toList) = true →
      strContains (lowerStr p.description) ("tested".toList) = true) ∧
    (strContains (lowerStr p.description) ("no audit".toList) = true →
      strContains (lowerStr p.description) ("audit".toList) = true) ∧
    (strContains (lowerStr p.description) ("untested".toList) = true →
      highTerm (lowerStr p.title) (lowerStr p.description) ("untested".toList)
        + lowTerm (lowerStr p.description) ("tested".toList) = -(1/10)) ∧
    (strContains (lowerStr p.description) ("no audit".toList) = true →
      highTerm (lowerStr p.title) (lowerStr p.description) ("no audit".toList)
        + lowTerm (lowerStr p.description) ("audit".toList) = -(1/10)) := by
  have h1 : strContains (lowerStr p.description) ("untested".toList) = true →
      strContains (lowerStr p.description) ("tested".toList) = true := by
    intro h
    have e : ("untested".toList : List Char) = "un".toList ++ "tested".toList := rfl
    rw [e] at h
    exact strContains_of_append _ _ _ h
  have h2 : strContains (lowerStr p.description) ("no audit".toList) = true →
      strContains (lowerStr p.description) ("audit".toList) = true := by
    intro h
    have e : ("no audit".toList : List Char) = "no ".toList ++ "audit".toList := rfl
    rw [e] at h
    exact strContains_of_append _ _ _ h
  refine ⟨h1, h2, ?_, ?_⟩
  · intro h
    unfold highTerm lowTerm
    rw [h, h1 h]
    norm_num
  · intro h
    unfold highTerm lowTerm
    rw [h, h2 h]
    norm_num

/-- Concrete proposal whose description contains `untested` and `no audit`. -/
def pC10 : Proposal :=
  { id := 7, title := [], description := "untested change with no audit".toList, proposer := [] }

/-- Witness for C10: on a description containing both `untested` and `no audit`,
each penalty/bonus pair sums to -0.1. -/
theorem claim_c10_witness :
    highTerm (lowerStr pC10.title) (lowerStr pC10.description) ("untested".toList)
      + lowTerm (lowerStr pC10.description) ("tested".toList) = -(1/10) ∧
    highTerm (lowerStr pC10.title) (lowerStr pC10.description) ("no audit".toList)
      + lowTerm (lowerStr pC10.description) ("audit".toList) = -(1/10) :=
  ⟨(claim_c10_offsets pC10).2.2.1 (by decide), (claim_c10_offsets pC10).2.2.2 (by decide)⟩
